import Mathlib

/-!
Verification of the usage accumulation and persistence subsystem of an
internet speed monitor.

The development shallowly embeds three Python modules:

* `infrastructure/database/sqlite_usage_repository.py` — the SQLite-backed
  `UsageRepository`.  The `daily_usage` table (primary key `day`, stored as
  the ISO date string) is modelled as a `List DailyUsage`; the ISO `TEXT`
  key is modelled as a `List Char` produced by `isoChars`, so that the
  `LIKE 'YYYY-MM%'` scan of `get_monthly` can be stated faithfully as a
  character-prefix test.
* `infrastructure/system/network_provider.py` — the `NetworkProvider`
  rate sampler.  The psutil counter reads are inputs to the model.
* `application/services/speed_monitor_service.py` — the
  `SpeedMonitorService` accumulator.  The repository calls performed by a
  step are recorded in a `calls` log, and the order of the side effects of
  one loop iteration is recorded as a list of `Ev` events.  Whether a
  repository write succeeds is a `Bool` input (`_flush` swallows the
  exception either way).

Python integers are modelled as `Int` (byte counts, speeds, seconds);
the flush counter, which only ever counts up from zero, as `Nat`.
-/

namespace SpeedMonitor

/-- Calendar date, standing for Python `datetime.date` (year 1–9999,
month 1–12). -/
structure Day where
  year : Nat
  month : Nat
  dayOfMonth : Nat
deriving DecidableEq, Repr

/-- Entity `SpeedSnapshot` from `domain/entities/network_usage.py`. -/
structure SpeedSnapshot where
  up_speed : Int
  down_speed : Int
  bytes_sent_delta : Int
  bytes_recv_delta : Int
deriving DecidableEq, Repr

/-- Entity `DailyUsage` from `domain/entities/network_usage.py`. -/
structure DailyUsage where
  day : Day
  bytes_sent : Int
  bytes_recv : Int
  max_up_speed : Int
  max_down_speed : Int
  active_seconds : Int
deriving DecidableEq, Repr

/-- Entity `MonthlyUsage` from `domain/entities/network_usage.py`. -/
structure MonthlyUsage where
  year : Nat
  month : Nat
  bytes_sent : Int
  bytes_recv : Int
  max_up_speed : Int
  max_down_speed : Int
  active_seconds : Int
  days_tracked : Nat
deriving DecidableEq, Repr

/-- The decimal digit character for `n < 10`, as produced by Python
string formatting. -/
def digitChar (n : Nat) : Char := Char.ofNat (48 + n)

/-- Two-digit zero-padded decimal rendering (`%02d` for `n < 100`). -/
def pad2 (n : Nat) : List Char := [digitChar (n / 10), digitChar (n % 10)]

/-- Four-digit zero-padded decimal rendering (`%04d` for `n < 10000`). -/
def pad4 (n : Nat) : List Char :=
  [digitChar (n / 1000), digitChar (n / 100 % 10), digitChar (n / 10 % 10), digitChar (n % 10)]

/-- ISO rendering `YYYY-MM-DD` of a day (`date.isoformat()`), the value of
the `day` column of the `daily_usage` table. -/
def isoChars (d : Day) : List Char :=
  pad4 d.year ++ '-' :: pad2 d.month ++ '-' :: pad2 d.dayOfMonth

/-- The pattern `f"{year:04d}-{month:02d}"` that `get_monthly` matches
with `LIKE` against the `day` column (the `%` wildcard is appended, so
the test is that this is a character-prefix of the stored key). -/
def monthKey (year month : Nat) : List Char :=
  pad4 year ++ '-' :: pad2 month

/-- The merged row produced by the `ON CONFLICT(day) DO UPDATE` clause of
`upsert_daily`: `bytes_sent`, `bytes_recv` and `active_seconds` are
replaced by the excluded (incoming) values, the two peak-speed columns
take the larger of the stored and incoming values, and the key is
untouched. -/
def mergeRow (old incoming : DailyUsage) : DailyUsage :=
  { day := old.day
    bytes_sent := incoming.bytes_sent
    bytes_recv := incoming.bytes_recv
    max_up_speed := max old.max_up_speed incoming.max_up_speed
    max_down_speed := max old.max_down_speed incoming.max_down_speed
    active_seconds := incoming.active_seconds }

/-- `SqliteUsageRepository.upsert_daily`: `INSERT ... ON CONFLICT(day) DO
UPDATE`.  The table is a list of rows; `day` is the primary key, so a
conflict means some row already carries `usage.day`. -/
def upsert_daily (t : List DailyUsage) (u : DailyUsage) : List DailyUsage :=
  if t.any fun r => decide (r.day = u.day) then
    t.map fun r => if r.day = u.day then mergeRow r u else r
  else
    t ++ [u]

/-- `SqliteUsageRepository.get_daily`: `SELECT * FROM daily_usage WHERE
day = ?`, returning the row for the given day when present. -/
def get_daily (t : List DailyUsage) (d : Day) : Option DailyUsage :=
  t.find? fun r => decide (r.day = d)

/-- The body of the `for r in rows` loop of `get_monthly`: running sums
for bytes and active seconds, running maxima for the peak speeds, and a
row count. -/
def monthlyStep (mu : MonthlyUsage) (d : DailyUsage) : MonthlyUsage :=
  { year := mu.year
    month := mu.month
    bytes_sent := mu.bytes_sent + d.bytes_sent
    bytes_recv := mu.bytes_recv + d.bytes_recv
    max_up_speed := max mu.max_up_speed d.max_up_speed
    max_down_speed := max mu.max_down_speed d.max_down_speed
    active_seconds := mu.active_seconds + d.active_seconds
    days_tracked := mu.days_tracked + 1 }

/-- The freshly constructed `MonthlyUsage(year=year, month=month)` with
all dataclass defaults at zero. -/
def initMonthly (year month : Nat) : MonthlyUsage :=
  { year := year, month := month, bytes_sent := 0, bytes_recv := 0
    max_up_speed := 0, max_down_speed := 0, active_seconds := 0, days_tracked := 0 }

/-- `SqliteUsageRepository.get_monthly`: select the rows whose `day` text
matches `LIKE "{year:04d}-{month:02d}%"` and fold them with
`monthlyStep` starting from `initMonthly`. -/
def get_monthly (t : List DailyUsage) (year month : Nat) : MonthlyUsage :=
  ((t.filter fun r => (monthKey year month).isPrefixOf (isoChars r.day)).foldl
    monthlyStep (initMonthly year month))

/-- Stated from the specification, for comparison with `get_monthly`:
the rows of the table whose day's year and month equal the query. -/
def monthRowsSpec (t : List DailyUsage) (year month : Nat) : List DailyUsage :=
  t.filter fun r => decide (r.day.year = year ∧ r.day.month = month)

/-- Baseline state of `NetworkProvider`: `_last_sent` / `_last_recv`. -/
structure NetState where
  last_sent : Int
  last_recv : Int
deriving DecidableEq, Repr

/-- `NetworkProvider._init_counters`: the construction-time read
`(r.1, r.2)` of the cumulative counters becomes the initial baseline. -/
def netInit (r : Int × Int) : NetState :=
  { last_sent := r.1, last_recv := r.2 }

/-- `NetworkProvider.snapshot` given the current counter read `r`:
compute the deltas against the baseline, move the baseline to `r`, and
return a snapshot whose four fields are the deltas clamped at zero
(`max(sent_delta, 0)` and so on). -/
def snapshot (s : NetState) (r : Int × Int) : SpeedSnapshot × NetState :=
  let sentDelta := r.1 - s.last_sent
  let recvDelta := r.2 - s.last_recv
  ({ up_speed := max sentDelta 0
     down_speed := max recvDelta 0
     bytes_sent_delta := max sentDelta 0
     bytes_recv_delta := max recvDelta 0 },
   { last_sent := r.1, last_recv := r.2 })

/-- The snapshots returned by successive `snapshot()` calls fed by the
counter reads `rs`, starting from baseline state `s`. -/
def runSampler (s : NetState) (rs : List (Int × Int)) : List SpeedSnapshot :=
  match rs with
  | [] => []
  | r :: rest => (snapshot s r).1 :: runSampler (snapshot s r).2 rest

/-- In-memory accumulator state of `SpeedMonitorService`: `_today`, the
five running totals, and `_flush_counter`. -/
structure AccState where
  today : Day
  bytes_sent : Int
  bytes_recv : Int
  max_up : Int
  max_down : Int
  active_secs : Int
  flush_counter : Nat
deriving DecidableEq, Repr

/-- Property `SpeedMonitorService.today_usage`: the running totals
packaged as a `DailyUsage` for the current day. -/
def today_usage (s : AccState) : DailyUsage :=
  { day := s.today
    bytes_sent := s.bytes_sent
    bytes_recv := s.bytes_recv
    max_up_speed := s.max_up
    max_down_speed := s.max_down
    active_seconds := s.active_secs }

/-- `SpeedMonitorService.__init__`: fields start at zero with
`_flush_counter = 0`; if the repository already holds a row for today its
five usage fields seed the running totals. -/
def initAcc (today : Day) (t : List DailyUsage) : AccState :=
  match get_daily t today with
  | some e =>
    { today := today
      bytes_sent := e.bytes_sent
      bytes_recv := e.bytes_recv
      max_up := e.max_up_speed
      max_down := e.max_down_speed
      active_secs := e.active_seconds
      flush_counter := 0 }
  | none =>
    { today := today, bytes_sent := 0, bytes_recv := 0
      max_up := 0, max_down := 0, active_secs := 0, flush_counter := 0 }

/-- `SpeedMonitorService._flush`: call `upsert_daily(today_usage)` on the
repository inside `try/except Exception: pass`.  `ok` says whether the
repository write succeeds; on failure the store is left as it was, and in
either case the accumulator state is untouched (`_flush` assigns no
field). -/
def flushStore (ok : Bool) (t : List DailyUsage) (s : AccState) : List DailyUsage :=
  if ok then upsert_daily t (today_usage s) else t

/-- The reset performed by the day-rollover branch of `_accumulate`: the
five running totals return to zero and `_today` becomes the new date;
`_flush_counter` is not assigned there. -/
def rollReset (s : AccState) (now : Day) : AccState :=
  { today := now, bytes_sent := 0, bytes_recv := 0
    max_up := 0, max_down := 0, active_secs := 0, flush_counter := s.flush_counter }

/-- The fold of one snapshot into the running totals performed by
`_accumulate`: byte deltas are added, peaks are maxed, and one active
second is counted. -/
def foldSnap (snap : SpeedSnapshot) (s : AccState) : AccState :=
  { today := s.today
    bytes_sent := s.bytes_sent + snap.bytes_sent_delta
    bytes_recv := s.bytes_recv + snap.bytes_recv_delta
    max_up := max s.max_up snap.up_speed
    max_down := max s.max_down snap.down_speed
    active_secs := s.active_secs + 1
    flush_counter := s.flush_counter }

/-- Module constant `_FLUSH_INTERVAL = 10`. -/
def FLUSH_INTERVAL : Nat := 10

/-- Observable side effects of one `_accumulate` call (and, with
`Ev.broadcast`, of one `_loop` iteration), in the order the code performs
them. -/
inductive Ev where
  | rollFlush
  | fold
  | incr
  | perFlush
  | broadcast
deriving DecidableEq, Repr

/-- Result of one `_accumulate` call: the store after the call, the new
accumulator state, the `DailyUsage` arguments of the `upsert_daily`
invocations the call made (in order, whether or not the write succeeded),
and the ordered event trace. -/
structure AccResult where
  store : List DailyUsage
  state : AccState
  calls : List DailyUsage
  events : List Ev
deriving Repr

/-- `SpeedMonitorService._accumulate(snap)` at wall-clock date `now`.
If the date changed, flush the stale totals (outcome `okRoll`) and reset;
then fold the snapshot in, increment the flush counter, and when the
counter has reached `_FLUSH_INTERVAL`, flush (outcome `okPer`) and zero
the counter. -/
def accumulate (okRoll okPer : Bool) (now : Day) (snap : SpeedSnapshot)
    (t : List DailyUsage) (s : AccState) : AccResult :=
  let t1 := if now = s.today then t else flushStore okRoll t s
  let s1 := if now = s.today then s else rollReset s now
  let c1 : List DailyUsage := if now = s.today then [] else [today_usage s]
  let e1 : List Ev := if now = s.today then [] else [Ev.rollFlush]
  let s2 := foldSnap snap s1
  let s3 : AccState :=
    { today := s2.today, bytes_sent := s2.bytes_sent, bytes_recv := s2.bytes_recv
      max_up := s2.max_up, max_down := s2.max_down, active_secs := s2.active_secs
      flush_counter := s2.flush_counter + 1 }
  if s3.flush_counter ≥ FLUSH_INTERVAL then
    { store := flushStore okPer t1 s3
      state := { today := s3.today, bytes_sent := s3.bytes_sent, bytes_recv := s3.bytes_recv
                 max_up := s3.max_up, max_down := s3.max_down, active_secs := s3.active_secs
                 flush_counter := 0 }
      calls := c1 ++ [today_usage s3]
      events := e1 ++ [Ev.fold, Ev.incr, Ev.perFlush] }
  else
    { store := t1, state := s3, calls := c1, events := e1 ++ [Ev.fold, Ev.incr] }

/-- The event trace of one `_loop` iteration with a subscriber
registered: `_accumulate(snap)` runs first, and only then is the snapshot
broadcast via `on_speed_update`. -/
def loopIterEvents (okRoll okPer : Bool) (now : Day) (snap : SpeedSnapshot)
    (t : List DailyUsage) (s : AccState) : List Ev :=
  (accumulate okRoll okPer now snap t s).events ++ [Ev.broadcast]

/-- `SpeedMonitorService.stop`: clear the running flag and perform one
final `_flush` (outcome `ok`); the accumulator fields are not touched. -/
def stopFlush (ok : Bool) (t : List DailyUsage) (s : AccState) :
    List DailyUsage × AccState :=
  (flushStore ok t s, s)

/-- Run `_accumulate` over a list of snapshots taken at the fixed
wall-clock date `now`, with every repository write succeeding; returns
the final store, the final state, and all `upsert_daily` invocations in
order. -/
def runAcc (now : Day) (snaps : List SpeedSnapshot) (t : List DailyUsage)
    (s : AccState) : List DailyUsage × AccState × List DailyUsage :=
  match snaps with
  | [] => (t, s, [])
  | snap :: rest =>
    let res := accumulate true true now snap t s
    let next := runAcc now rest res.store res.state
    (next.1, next.2.1, res.calls ++ next.2.2)

/-- Fold `upsert_daily` over a list of incoming usage values
(a sequence of flushes hitting the repository). -/
def iterUpsert (t : List DailyUsage) (us : List DailyUsage) : List DailyUsage :=
  us.foldl upsert_daily t

/-- The ordering the specification asserts for one loop iteration: the
broadcast happens before the flush-counter increment (positions taken in
the iteration's event trace). -/
def broadcastBeforeIncr (evs : List Ev) : Prop :=
  evs.indexOf Ev.broadcast < evs.indexOf Ev.incr

/-! ## Concrete sample data used by the witnesses -/

def dayA : Day := ⟨2024, 1, 1⟩

def dayB : Day := ⟨2024, 1, 2⟩

def rowA : DailyUsage := ⟨dayA, 5, 6, 7, 8, 9⟩

def rowA2 : DailyUsage := ⟨dayA, 10, 11, 3, 20, 12⟩

def rowC : DailyUsage := ⟨⟨2024, 2, 1⟩, 100, 200, 30, 40, 50⟩

def accA : AccState := ⟨dayA, 1, 2, 3, 4, 5, 0⟩

def accNine : AccState := ⟨dayA, 0, 0, 0, 0, 0, 9⟩

def snapA : SpeedSnapshot := ⟨7, 8, 7, 8⟩

/-! ## Helper lemmas about row lookup and upsert -/

theorem find?_map_keyfix {α : Type} (p : α → Bool) (f : α → α) (l : List α)
    (hpres : ∀ x, p (f x) = p x) :
    (l.map f).find? p = (l.find? p).map f := by
  induction l with
  | nil => rfl
  | cons a l ih =>
    cases hpa : p a
    · simp [List.find?, hpa, hpres a, ih]
    · simp [List.find?, hpa, hpres a]

theorem find?_append_of_none {α : Type} (p : α → Bool) (l1 l2 : List α)
    (h : l1.find? p = none) :
    (l1 ++ l2).find? p = l2.find? p := by
  induction l1 with
  | nil => rfl
  | cons a l ih =>
    cases hpa : p a
    · simp only [List.find?, hpa] at h
      simp [List.find?, hpa, ih h]
    · simp [List.find?, hpa] at h

theorem find?_append_single {α : Type} (p : α → Bool) (l : List α) (x : α)
    (h : p x = false) :
    (l ++ [x]).find? p = l.find? p := by
  induction l with
  | nil => simp [List.find?, h]
  | cons a l ih =>
    cases hpa : p a <;> simp [List.find?, hpa, ih]

/-- The update function of the conflict branch leaves the `day` key of
every row alone, hence preserves the lookup predicate. -/
theorem mergeMap_pres (u : DailyUsage) (d : Day) :
    ∀ x : DailyUsage,
      (fun r : DailyUsage => decide (r.day = d))
          ((fun r : DailyUsage => if r.day = u.day then mergeRow r u else r) x) =
        (fun r : DailyUsage => decide (r.day = d)) x := by
  intro x
  by_cases hx : x.day = u.day <;> simp [mergeRow, hx]

theorem get_daily_day_eq (t : List DailyUsage) (d : Day) (r : DailyUsage)
    (h : get_daily t d = some r) : r.day = d := by
  unfold get_daily at h
  have hp := List.find?_some h
  simpa using hp

theorem get_daily_mem (t : List DailyUsage) (d : Day) (r : DailyUsage)
    (h : get_daily t d = some r) : r ∈ t := by
  unfold get_daily at h
  exact List.mem_of_find?_eq_some h

theorem upsert_daily_of_absent (t : List DailyUsage) (u : DailyUsage)
    (h : get_daily t u.day = none) :
    upsert_daily t u = t ++ [u] := by
  unfold get_daily at h
  rw [List.find?_eq_none] at h
  unfold upsert_daily
  rw [if_neg]
  intro hany
  rw [List.any_eq_true] at hany
  obtain ⟨r, hr, hp⟩ := hany
  exact h r hr hp

theorem get_daily_upsert_absent (t : List DailyUsage) (u : DailyUsage)
    (h : get_daily t u.day = none) :
    get_daily (upsert_daily t u) u.day = some u := by
  rw [upsert_daily_of_absent t u h]
  unfold get_daily at h ⊢
  rw [find?_append_of_none _ _ _ h]
  simp [List.find?]

theorem get_daily_upsert_present (t : List DailyUsage) (u r : DailyUsage)
    (h : get_daily t u.day = some r) :
    get_daily (upsert_daily t u) u.day = some (mergeRow r u) := by
  have hrd : r.day = u.day := get_daily_day_eq t u.day r h
  have hmem : r ∈ t := get_daily_mem t u.day r h
  unfold upsert_daily
  rw [if_pos]
  · unfold get_daily at h ⊢
    rw [find?_map_keyfix _ _ _ (mergeMap_pres u u.day), h]
    simp [hrd]
  · rw [List.any_eq_true]
    exact ⟨r, hmem, decide_eq_true hrd⟩

theorem get_daily_upsert_other (t : List DailyUsage) (u : DailyUsage) (d : Day)
    (h : d ≠ u.day) :
    get_daily (upsert_daily t u) d = get_daily t d := by
  unfold upsert_daily
  by_cases hc : (t.any fun r => decide (r.day = u.day)) = true
  · rw [if_pos hc]
    unfold get_daily
    rw [find?_map_keyfix _ _ _ (mergeMap_pres u d)]
    cases hf : t.find? fun r => decide (r.day = d) with
    | none => rfl
    | some r =>
      have hrd : r.day = d := get_daily_day_eq t d r hf
      have : ¬ r.day = u.day := by rw [hrd]; exact h
      simp [this]
  · rw [if_neg hc]
    unfold get_daily
    apply find?_append_single
    simp [h, Ne.symm h]

/-! ## C1 -/

/-- C1: `upsert_daily u` inserts a new row keyed `u.day` when no row for
that day exists; when one exists it replaces `bytes_sent`, `bytes_recv`
and `active_seconds` with the incoming values and sets the two peak-speed
fields to the maximum of the stored and incoming values; lookups at every
other day are unchanged. -/
theorem upsert_daily_correct (t : List DailyUsage) (u : DailyUsage) :
    (get_daily t u.day = none →
      upsert_daily t u = t ++ [u] ∧
      get_daily (upsert_daily t u) u.day = some u) ∧
    (∀ r, get_daily t u.day = some r →
      ∃ r2, get_daily (upsert_daily t u) u.day = some r2 ∧
        r2.day = u.day ∧
        r2.bytes_sent = u.bytes_sent ∧
        r2.bytes_recv = u.bytes_recv ∧
        r2.active_seconds = u.active_seconds ∧
        r2.max_up_speed = max r.max_up_speed u.max_up_speed ∧
        r2.max_down_speed = max r.max_down_speed u.max_down_speed) ∧
    (∀ d, d ≠ u.day → get_daily (upsert_daily t u) d = get_daily t d) := by
  refine ⟨fun h => ⟨upsert_daily_of_absent t u h, get_daily_upsert_absent t u h⟩,
    fun r h => ?_, fun d hd => get_daily_upsert_other t u d hd⟩
  have hrd : r.day = u.day := get_daily_day_eq t u.day r h
  exact ⟨mergeRow r u, get_daily_upsert_present t u r h,
    by simp [mergeRow, hrd], rfl, rfl, rfl, rfl, rfl⟩

/-- Witness for C1: the merge branch evaluated at a concrete one-row
table. -/
theorem upsert_daily_correct_witness :
    ∃ r2, get_daily (upsert_daily [rowA] rowA2) rowA2.day = some r2 ∧
      r2.day = rowA2.day ∧
      r2.bytes_sent = rowA2.bytes_sent ∧
      r2.bytes_recv = rowA2.bytes_recv ∧
      r2.active_seconds = rowA2.active_seconds ∧
      r2.max_up_speed = max rowA.max_up_speed rowA2.max_up_speed ∧
      r2.max_down_speed = max rowA.max_down_speed rowA2.max_down_speed :=
  (upsert_daily_correct [rowA] rowA2).2.1 rowA (by decide)

/-! ## C2 -/

theorem le_foldl_max (a : Int) (l : List Int) : a ≤ l.foldl max a := by
  induction l generalizing a with
  | nil => exact le_refl a
  | cons x l ih => exact le_trans (le_max_left a x) (ih (max a x))

theorem foldl_max_of_mem {x : Int} {l : List Int} (h : x ∈ l) :
    ∀ a : Int, x ≤ l.foldl max a := by
  induction l with
  | nil => cases h
  | cons y l ih =>
    intro a
    rcases List.mem_cons.mp h with rfl | hx
    · exact le_trans (le_max_right a x) (le_foldl_max _ l)
    · exact ih hx _

theorem foldl_max_mem (l : List Int) :
    ∀ a : Int, l.foldl max a = a ∨ l.foldl max a ∈ l := by
  induction l with
  | nil => exact fun a => Or.inl rfl
  | cons x l ih =>
    intro a
    rcases ih (max a x) with h | h
    · rcases max_cases a x with ⟨he, _⟩ | ⟨he, _⟩
      · rw [List.foldl_cons, h, he]
        exact Or.inl rfl
      · rw [List.foldl_cons, h, he]
        exact Or.inr (List.mem_cons_self x l)
    · exact Or.inr (List.mem_cons_of_mem _ h)

/-- Repeated upserts onto an existing row for day `d` leave a row whose
peak fields are the running maxima of the stored and incoming peaks. -/
theorem iterUpsert_present (d : Day) (us : List DailyUsage) :
    ∀ (t : List DailyUsage) (r : DailyUsage), (∀ u ∈ us, u.day = d) →
      get_daily t d = some r →
      ∃ r2, get_daily (iterUpsert t us) d = some r2 ∧
        r2.max_up_speed = (us.map DailyUsage.max_up_speed).foldl max r.max_up_speed ∧
        r2.max_down_speed = (us.map DailyUsage.max_down_speed).foldl max r.max_down_speed := by
  induction us with
  | nil => exact fun t r _ hr => ⟨r, hr, rfl, rfl⟩
  | cons u us ih =>
    intro t r hall hr
    have hud : u.day = d := hall u (List.mem_cons_self u us)
    have hr2 : get_daily t u.day = some r := by rw [hud]; exact hr
    have hnext : get_daily (upsert_daily t u) d = some (mergeRow r u) := by
      rw [← hud]
      exact get_daily_upsert_present t u r hr2
    obtain ⟨r3, hr3, hup, hdown⟩ := ih (upsert_daily t u) (mergeRow r u)
      (fun v hv => hall v (List.mem_cons_of_mem u hv)) hnext
    refine ⟨r3, by simpa [iterUpsert] using hr3, ?_, ?_⟩
    · rw [hup]
      simp [mergeRow]
    · rw [hdown]
      simp [mergeRow]

/-- C2: over any sequence of upserts that all carry the same day key,
starting from a table without that key, the final stored peak fields are
the maxima over all upserted values; and each single upsert onto an
existing row never decreases the stored peaks. -/
theorem upsert_peak_monotone (d : Day) (us t : List DailyUsage)
    (hall : ∀ u ∈ us, u.day = d) (h0 : get_daily t d = none) (hne : us ≠ []) :
    (∃ r, get_daily (iterUpsert t us) d = some r ∧
      r.max_up_speed ∈ us.map DailyUsage.max_up_speed ∧
      r.max_down_speed ∈ us.map DailyUsage.max_down_speed ∧
      ∀ u ∈ us, u.max_up_speed ≤ r.max_up_speed ∧
        u.max_down_speed ≤ r.max_down_speed) ∧
    (∀ t2 u r2, u.day = d → get_daily t2 d = some r2 →
      ∃ r3, get_daily (upsert_daily t2 u) d = some r3 ∧
        r2.max_up_speed ≤ r3.max_up_speed ∧
        r2.max_down_speed ≤ r3.max_down_speed) := by
  constructor
  · match us, hne with
    | u1 :: rest, _ =>
      have h1d : u1.day = d := hall u1 (List.mem_cons_self u1 rest)
      have h0u : get_daily t u1.day = none := by rw [h1d]; exact h0
      have hfirst : get_daily (upsert_daily t u1) d = some u1 := by
        rw [← h1d]
        exact get_daily_upsert_absent t u1 h0u
      obtain ⟨r2, hr2, hup, hdown⟩ := iterUpsert_present d rest (upsert_daily t u1) u1
        (fun v hv => hall v (List.mem_cons_of_mem u1 hv)) hfirst
      refine ⟨r2, by simpa [iterUpsert] using hr2, ?_, ?_, ?_⟩
      · rw [hup, List.map_cons]
        rcases foldl_max_mem (rest.map DailyUsage.max_up_speed) u1.max_up_speed with h | h
        · rw [h]
          exact List.mem_cons_self _ _
        · exact List.mem_cons_of_mem _ h
      · rw [hdown, List.map_cons]
        rcases foldl_max_mem (rest.map DailyUsage.max_down_speed) u1.max_down_speed with h | h
        · rw [h]
          exact List.mem_cons_self _ _
        · exact List.mem_cons_of_mem _ h
      · intro u hu
        rw [hup, hdown]
        rcases List.mem_cons.mp hu with rfl | hu2
        · exact ⟨le_foldl_max _ _, le_foldl_max _ _⟩
        · exact ⟨foldl_max_of_mem (List.mem_map_of_mem _ hu2) _,
            foldl_max_of_mem (List.mem_map_of_mem _ hu2) _⟩
  · intro t2 u r2 hud hr2
    have hr2u : get_daily t2 u.day = some r2 := by rw [hud]; exact hr2
    have hmerge : get_daily (upsert_daily t2 u) d = some (mergeRow r2 u) := by
      rw [← hud]
      exact get_daily_upsert_present t2 u r2 hr2u
    exact ⟨mergeRow r2 u, hmerge, le_max_left _ _, le_max_left _ _⟩

/-- Witness for C2: two upserts onto the same day starting from the empty
table. -/
theorem upsert_peak_monotone_witness :
    ∃ r, get_daily (iterUpsert [] [rowA, rowA2]) dayA = some r ∧
      r.max_up_speed ∈ [rowA, rowA2].map DailyUsage.max_up_speed ∧
      r.max_down_speed ∈ [rowA, rowA2].map DailyUsage.max_down_speed ∧
      ∀ u ∈ [rowA, rowA2], u.max_up_speed ≤ r.max_up_speed ∧
        u.max_down_speed ≤ r.max_down_speed :=
  (upsert_peak_monotone dayA [rowA, rowA2] [] (by decide) (by decide) (by decide)).1

/-! ## C3 -/

theorem runSampler_length (s : NetState) (rs : List (Int × Int)) :
    (runSampler s rs).length = rs.length := by
  induction rs generalizing s with
  | nil => rfl
  | cons r rest ih => simp [runSampler, ih]

/-- The `i`-th snapshot of a run is the snapshot taken against the
baseline holding the previous reading (the starting state for `i = 0`). -/
theorem runSampler_get_eq (rs : List (Int × Int)) :
    ∀ (s : NetState) (i : Nat) (h : i < rs.length)
      (h2 : i < (runSampler s rs).length),
      (runSampler s rs).get ⟨i, h2⟩ =
        (snapshot (if i = 0 then s else netInit (rs.get ⟨i - 1, by omega⟩))
          (rs.get ⟨i, h⟩)).1 := by
  induction rs with
  | nil =>
    intro s i h h2
    exact absurd h (Nat.not_lt_zero i)
  | cons r rest ih =>
    intro s i h h2
    cases i with
    | zero => rfl
    | succ j =>
      have hj : j < rest.length := by
        simpa [Nat.succ_lt_succ_iff] using h
      have hj2 : j < (runSampler (snapshot s r).2 rest).length := by
        rw [runSampler_length]
        exact hj
      have hstep : (runSampler s (r :: rest)).get ⟨j + 1, h2⟩ =
          (runSampler (snapshot s r).2 rest).get ⟨j, hj2⟩ := rfl
      rw [hstep, ih (snapshot s r).2 j hj hj2]
      cases j with
      | zero => rfl
      | succ k => rfl

/-- C3: the `i`-th snapshot of a sampler constructed at reading `r0` and
then fed the readings `rs` carries `up_speed = bytes_sent_delta =
max 0 (sent_i - sent_prev)` and `down_speed = bytes_recv_delta =
max 0 (recv_i - recv_prev)`, where the previous reading is `r0` for the
first snapshot; all four fields are nonnegative for every reading
sequence, including decreasing ones. -/
theorem sampler_delta_clamp (r0 : Int × Int) (rs : List (Int × Int)) :
    (runSampler (netInit r0) rs).length = rs.length ∧
    ∀ (i : Nat) (h : i < rs.length) (h2 : i < (runSampler (netInit r0) rs).length),
      ((runSampler (netInit r0) rs).get ⟨i, h2⟩).up_speed =
        max 0 ((rs.get ⟨i, h⟩).1 - (if i = 0 then r0 else rs.get ⟨i - 1, by omega⟩).1) ∧
      ((runSampler (netInit r0) rs).get ⟨i, h2⟩).down_speed =
        max 0 ((rs.get ⟨i, h⟩).2 - (if i = 0 then r0 else rs.get ⟨i - 1, by omega⟩).2) ∧
      ((runSampler (netInit r0) rs).get ⟨i, h2⟩).bytes_sent_delta =
        ((runSampler (netInit r0) rs).get ⟨i, h2⟩).up_speed ∧
      ((runSampler (netInit r0) rs).get ⟨i, h2⟩).bytes_recv_delta =
        ((runSampler (netInit r0) rs).get ⟨i, h2⟩).down_speed ∧
      0 ≤ ((runSampler (netInit r0) rs).get ⟨i, h2⟩).up_speed ∧
      0 ≤ ((runSampler (netInit r0) rs).get ⟨i, h2⟩).down_speed ∧
      0 ≤ ((runSampler (netInit r0) rs).get ⟨i, h2⟩).bytes_sent_delta ∧
      0 ≤ ((runSampler (netInit r0) rs).get ⟨i, h2⟩).bytes_recv_delta := by
  refine ⟨runSampler_length _ _, ?_⟩
  intro i h h2
  rw [runSampler_get_eq rs (netInit r0) i h h2]
  by_cases hz : i = 0 <;>
    simp [hz, snapshot, netInit, max_comm]

/-- Witness for C3: the spec's scenario — construction read
`(1000, 2000)`, then `(1500, 2500)` giving `up_speed = 500`, then the
reset read `(1200, 2400)` giving the clamped `up_speed = 0`. -/
theorem sampler_delta_clamp_witness :
    ((runSampler (netInit (1000, 2000)) [(1500, 2500), (1200, 2400)]).get
      ⟨0, by decide⟩).up_speed = 500 ∧
    ((runSampler (netInit (1000, 2000)) [(1500, 2500), (1200, 2400)]).get
      ⟨1, by decide⟩).up_speed = 0 := by
  have h0 := (sampler_delta_clamp (1000, 2000) [(1500, 2500), (1200, 2400)]).2 0
    (by decide) (by decide)
  have h1 := (sampler_delta_clamp (1000, 2000) [(1500, 2500), (1200, 2400)]).2 1
    (by decide) (by decide)
  constructor
  · rw [h0.1]
    decide
  · rw [h1.1]
    decide

/-! ## C4 -/

/-- C4: when the wall-clock date `now` differs from the accumulator's
current day, the stale totals are handed to `upsert_daily` under the old
day key as the first repository call of the step, the lookup for the old
day afterwards is exactly the lookup after that upsert, and the new state
shows that all running fields were zeroed before the new snapshot was
folded in: the new day's bucket holds exactly the one new sample. -/
theorem rollover_flush_reset (okPer : Bool) (now : Day) (snap : SpeedSnapshot)
    (t : List DailyUsage) (s : AccState) (h : now ≠ s.today) :
    (accumulate true okPer now snap t s).calls.head? = some (today_usage s) ∧
    get_daily (accumulate true okPer now snap t s).store s.today =
      get_daily (upsert_daily t (today_usage s)) s.today ∧
    (accumulate true okPer now snap t s).state.today = now ∧
    (accumulate true okPer now snap t s).state.bytes_sent = snap.bytes_sent_delta ∧
    (accumulate true okPer now snap t s).state.bytes_recv = snap.bytes_recv_delta ∧
    (accumulate true okPer now snap t s).state.max_up = max 0 snap.up_speed ∧
    (accumulate true okPer now snap t s).state.max_down = max 0 snap.down_speed ∧
    (accumulate true okPer now snap t s).state.active_secs = 1 := by
  simp only [accumulate, if_neg h, foldSnap, rollReset]
  by_cases hc : s.flush_counter + 1 ≥ FLUSH_INTERVAL
  · rw [if_pos hc]
    refine ⟨rfl, ?_, rfl, by simp, by simp, rfl, rfl, rfl⟩
    cases okPer with
    | false => rfl
    | true =>
      exact get_daily_upsert_other _ _ _ (Ne.symm h)
  · rw [if_neg hc]
    exact ⟨rfl, rfl, rfl, by simp, by simp, rfl, rfl, rfl⟩

/-- Witness for C4: a rollover from `dayA` to `dayB` at a concrete
state. -/
theorem rollover_flush_reset_witness :
    (accumulate true true dayB snapA [] accA).state.today = dayB ∧
    (accumulate true true dayB snapA [] accA).state.active_secs = 1 :=
  ⟨(rollover_flush_reset true dayB snapA [] accA (by decide)).2.2.1,
   (rollover_flush_reset true dayB snapA [] accA (by decide)).2.2.2.2.2.2.2⟩

/-! ## C5 -/

/-- One `_accumulate` step on the current day below the flush threshold:
totals fold in, the counter ticks, and the repository is not touched. -/
theorem accumulate_step_no_flush (now : Day) (snap : SpeedSnapshot)
    (t : List DailyUsage) (s : AccState) (h : now = s.today)
    (hc : s.flush_counter + 1 < FLUSH_INTERVAL) :
    accumulate true true now snap t s =
      { store := t
        state := ⟨s.today, s.bytes_sent + snap.bytes_sent_delta,
          s.bytes_recv + snap.bytes_recv_delta, max s.max_up snap.up_speed,
          max s.max_down snap.down_speed, s.active_secs + 1, s.flush_counter + 1⟩
        calls := []
        events := [Ev.fold, Ev.incr] } := by
  simp only [accumulate, if_pos h, foldSnap]
  rw [if_neg (by omega)]
  rfl

/-- One `_accumulate` step on the current day that reaches the flush
threshold: totals fold in, the folded totals are upserted, and the
counter returns to zero. -/
theorem accumulate_step_flush (now : Day) (snap : SpeedSnapshot)
    (t : List DailyUsage) (s : AccState) (h : now = s.today)
    (hc : s.flush_counter + 1 ≥ FLUSH_INTERVAL) :
    accumulate true true now snap t s =
      { store := upsert_daily t ⟨s.today, s.bytes_sent + snap.bytes_sent_delta,
          s.bytes_recv + snap.bytes_recv_delta, max s.max_up snap.up_speed,
          max s.max_down snap.down_speed, s.active_secs + 1⟩
        state := ⟨s.today, s.bytes_sent + snap.bytes_sent_delta,
          s.bytes_recv + snap.bytes_recv_delta, max s.max_up snap.up_speed,
          max s.max_down snap.down_speed, s.active_secs + 1, 0⟩
        calls := [⟨s.today, s.bytes_sent + snap.bytes_sent_delta,
          s.bytes_recv + snap.bytes_recv_delta, max s.max_up snap.up_speed,
          max s.max_down snap.down_speed, s.active_secs + 1⟩]
        events := [Ev.fold, Ev.incr, Ev.perFlush] } := by
  simp only [accumulate, if_pos h, foldSnap]
  rw [if_pos (by omega)]
  rfl

/-- A run of samples on the current day that stays strictly below the
flush threshold performs no repository call and just advances the counter
and the active-seconds count. -/
theorem runAcc_no_flush (now : Day) (snaps : List SpeedSnapshot) :
    ∀ (t : List DailyUsage) (s : AccState), s.today = now →
      s.flush_counter + snaps.length < FLUSH_INTERVAL →
      (runAcc now snaps t s).1 = t ∧
      (runAcc now snaps t s).2.2 = [] ∧
      (runAcc now snaps t s).2.1.today = now ∧
      (runAcc now snaps t s).2.1.flush_counter = s.flush_counter + snaps.length ∧
      (runAcc now snaps t s).2.1.active_secs = s.active_secs + (snaps.length : Int) := by
  induction snaps with
  | nil =>
    intro t s hday hc
    refine ⟨rfl, rfl, hday, rfl, ?_⟩
    show s.active_secs = s.active_secs + (([] : List SpeedSnapshot).length : Int)
    simp
  | cons snap rest ih =>
    intro t s hday hc
    have hlen : (snap :: rest).length = rest.length + 1 := rfl
    rw [hlen] at hc
    have hstep := accumulate_step_no_flush now snap t s hday.symm (by omega)
    simp only [runAcc, hstep]
    have hrec := ih t ⟨s.today, s.bytes_sent + snap.bytes_sent_delta,
      s.bytes_recv + snap.bytes_recv_delta, max s.max_up snap.up_speed,
      max s.max_down snap.down_speed, s.active_secs + 1, s.flush_counter + 1⟩
      hday (by simpa using by omega)
    refine ⟨hrec.1, by simp [hrec.2.1], hrec.2.2.1, ?_, ?_⟩
    · rw [hrec.2.2.2.1, hlen]
      show s.flush_counter + 1 + rest.length = s.flush_counter + (rest.length + 1)
      omega
    · rw [hrec.2.2.2.2, hlen]
      show s.active_secs + 1 + (rest.length : Int) = s.active_secs + ((rest.length + 1 : Nat) : Int)
      push_cast
      ring

theorem runAcc_cons (now : Day) (snap : SpeedSnapshot) (rest : List SpeedSnapshot)
    (t : List DailyUsage) (s : AccState) :
    runAcc now (snap :: rest) t s =
      ((runAcc now rest (accumulate true true now snap t s).store
          (accumulate true true now snap t s).state).1,
       (runAcc now rest (accumulate true true now snap t s).store
          (accumulate true true now snap t s).state).2.1,
       (accumulate true true now snap t s).calls ++
         (runAcc now rest (accumulate true true now snap t s).store
            (accumulate true true now snap t s).state).2.2) := rfl

/-- Running a concatenation of sample lists runs them in sequence, and
the repository call logs concatenate. -/
theorem runAcc_append (now : Day) (a b : List SpeedSnapshot) :
    ∀ (t : List DailyUsage) (s : AccState),
      runAcc now (a ++ b) t s =
        ((runAcc now b (runAcc now a t s).1 (runAcc now a t s).2.1).1,
         (runAcc now b (runAcc now a t s).1 (runAcc now a t s).2.1).2.1,
         (runAcc now a t s).2.2 ++
           (runAcc now b (runAcc now a t s).1 (runAcc now a t s).2.1).2.2) := by
  induction a with
  | nil =>
    intro t s
    rfl
  | cons snap rest ih =>
    intro t s
    rw [show (snap :: rest) ++ b = snap :: (rest ++ b) from rfl]
    simp only [runAcc_cons, ih, List.append_assoc]

/-- C5: from a fresh accumulator (no stored row for today, counter zero)
with no rollover and all flushes succeeding, nine samples cause no
`upsert_daily` invocation; ten samples cause exactly one, and it carries
`active_seconds = 10`. -/
theorem threshold_flush_scenario (now : Day) (t : List DailyUsage)
    (h0 : get_daily t now = none) (snaps9 snaps10 : List SpeedSnapshot)
    (h9 : snaps9.length = 9) (h10 : snaps10.length = 10) :
    (runAcc now snaps9 t (initAcc now t)).2.2 = [] ∧
    ∃ u, (runAcc now snaps10 t (initAcc now t)).2.2 = [u] ∧
      u.active_seconds = 10 := by
  have hinit : initAcc now t = ⟨now, 0, 0, 0, 0, 0, 0⟩ := by
    unfold initAcc
    rw [h0]
  rw [hinit]
  constructor
  · refine (runAcc_no_flush now snaps9 t ⟨now, 0, 0, 0, 0, 0, 0⟩ rfl ?_).2.1
    rw [h9]
    show 0 + 9 < FLUSH_INTERVAL
    decide
  · have hlenA : (snaps10.take 9).length = 9 := by simp [h10]
    have hlenB : (snaps10.drop 9).length = 1 := by simp [h10]
    obtain ⟨x, hx⟩ := List.length_eq_one.mp hlenB
    have hA := runAcc_no_flush now (snaps10.take 9) t ⟨now, 0, 0, 0, 0, 0, 0⟩ rfl
      (by rw [hlenA]; show 0 + 9 < FLUSH_INTERVAL; decide)
    have hsplit := runAcc_append now (snaps10.take 9) (snaps10.drop 9) t
      ⟨now, 0, 0, 0, 0, 0, 0⟩
    rw [List.take_append_drop] at hsplit
    rw [hsplit, hx, hA.2.1]
    have hstep := accumulate_step_flush now x
      (runAcc now (snaps10.take 9) t ⟨now, 0, 0, 0, 0, 0, 0⟩).1
      (runAcc now (snaps10.take 9) t ⟨now, 0, 0, 0, 0, 0, 0⟩).2.1
      hA.2.2.1.symm
      (by rw [hA.2.2.2.1, hlenA]; show 0 + 9 + 1 ≥ FLUSH_INTERVAL; decide)
    simp only [runAcc, hstep, List.nil_append, List.append_nil]
    refine ⟨_, rfl, ?_⟩
    show (runAcc now (snaps10.take 9) t ⟨now, 0, 0, 0, 0, 0, 0⟩).2.1.active_secs + 1 = 10
    rw [hA.2.2.2.2, hlenA]
    norm_num

/-- Witness for C5 at concrete snapshot lists of lengths 9 and 10 over
the empty table. -/
theorem threshold_flush_scenario_witness :
    (runAcc dayA (List.replicate 9 snapA) [] (initAcc dayA [])).2.2 = [] ∧
    ∃ u, (runAcc dayA (List.replicate 10 snapA) [] (initAcc dayA [])).2.2 = [u] ∧
      u.active_seconds = 10 :=
  threshold_flush_scenario dayA [] (by decide) (List.replicate 9 snapA)
    (List.replicate 10 snapA) (by decide) (by decide)

/-! ## C6 -/

theorem digitChar_inj : ∀ a, a < 10 → ∀ b, b < 10 →
    digitChar a = digitChar b → a = b := by decide

theorem pad4_eq_iff {a b : Nat} (ha : a < 10000) (hb : b < 10000) :
    pad4 a = pad4 b ↔ a = b := by
  constructor
  · intro h
    simp only [pad4, List.cons.injEq, and_true] at h
    obtain ⟨h1, h2, h3, h4⟩ := h
    have e1 := digitChar_inj _ (by omega) _ (by omega) h1
    have e2 := digitChar_inj _ (by omega) _ (by omega) h2
    have e3 := digitChar_inj _ (by omega) _ (by omega) h3
    have e4 := digitChar_inj _ (by omega) _ (by omega) h4
    omega
  · intro h
    rw [h]

theorem pad2_eq_iff {a b : Nat} (ha : a < 100) (hb : b < 100) :
    pad2 a = pad2 b ↔ a = b := by
  constructor
  · intro h
    simp only [pad2, List.cons.injEq, and_true] at h
    obtain ⟨h1, h2⟩ := h
    have e1 := digitChar_inj _ (by omega) _ (by omega) h1
    have e2 := digitChar_inj _ (by omega) _ (by omega) h2
    omega
  · intro h
    rw [h]

/-- The `LIKE "{y:04d}-{m:02d}%"` test of `get_monthly`, read on the ISO
key of a valid day, holds exactly when the day's year and month equal the
query. -/
theorem monthKey_isPrefixOf_iff (y m : Nat) (d : Day) (hy : y < 10000)
    (hm : m < 100) (hdy : d.year < 10000) (hdm : d.month < 100) :
    (monthKey y m).isPrefixOf (isoChars d) = true ↔
      d.year = y ∧ d.month = m := by
  obtain ⟨dy, dm, dd⟩ := d
  have hdy2 : dy < 10000 := hdy
  have hdm2 : dm < 100 := hdm
  simp only [monthKey, isoChars, pad4, pad2, List.cons_append, List.nil_append,
    List.isPrefixOf, Bool.and_eq_true, beq_iff_eq, beq_self_eq_true, true_and, and_true]
  constructor
  · rintro ⟨hy1, hy2, hy3, hy4, hm1, hm2⟩
    have e1 := digitChar_inj _ (by omega) _ (by omega) hy1
    have e2 := digitChar_inj _ (by omega) _ (by omega) hy2
    have e3 := digitChar_inj _ (by omega) _ (by omega) hy3
    have e4 := digitChar_inj _ (by omega) _ (by omega) hy4
    have f1 := digitChar_inj _ (by omega) _ (by omega) hm1
    have f2 := digitChar_inj _ (by omega) _ (by omega) hm2
    constructor
    · show dy = y
      omega
    · show dm = m
      omega
  · rintro ⟨h1, h2⟩
    obtain rfl : dy = y := h1
    obtain rfl : dm = m := h2
    exact ⟨rfl, rfl, rfl, rfl, rfl, rfl⟩

/-- Field characterization of the `get_monthly` fold over any row list:
sums for bytes and seconds, running maxima for peaks, and a row count. -/
theorem monthly_fold_fields (rows : List DailyUsage) :
    ∀ mu : MonthlyUsage,
      (rows.foldl monthlyStep mu).year = mu.year ∧
      (rows.foldl monthlyStep mu).month = mu.month ∧
      (rows.foldl monthlyStep mu).bytes_sent =
        mu.bytes_sent + (rows.map DailyUsage.bytes_sent).sum ∧
      (rows.foldl monthlyStep mu).bytes_recv =
        mu.bytes_recv + (rows.map DailyUsage.bytes_recv).sum ∧
      (rows.foldl monthlyStep mu).active_seconds =
        mu.active_seconds + (rows.map DailyUsage.active_seconds).sum ∧
      (rows.foldl monthlyStep mu).max_up_speed =
        (rows.map DailyUsage.max_up_speed).foldl max mu.max_up_speed ∧
      (rows.foldl monthlyStep mu).max_down_speed =
        (rows.map DailyUsage.max_down_speed).foldl max mu.max_down_speed ∧
      (rows.foldl monthlyStep mu).days_tracked = mu.days_tracked + rows.length := by
  induction rows with
  | nil =>
    intro mu
    simp
  | cons r rows ih =>
    intro mu
    simp only [List.foldl_cons, List.map_cons, List.sum_cons, List.length_cons]
    have h := ih (monthlyStep mu r)
    refine ⟨h.1, h.2.1, ?_, ?_, ?_, h.2.2.2.2.2.1, h.2.2.2.2.2.2.1, ?_⟩
    · rw [h.2.2.1]
      show mu.bytes_sent + r.bytes_sent + _ = mu.bytes_sent + (r.bytes_sent + _)
      ring
    · rw [h.2.2.2.1]
      show mu.bytes_recv + r.bytes_recv + _ = mu.bytes_recv + (r.bytes_recv + _)
      ring
    · rw [h.2.2.2.2.1]
      show mu.active_seconds + r.active_seconds + _ =
        mu.active_seconds + (r.active_seconds + _)
      ring
    · rw [h.2.2.2.2.2.2.2]
      show mu.days_tracked + 1 + rows.length = mu.days_tracked + (rows.length + 1)
      omega

/-- C6: for valid query bounds and a table of valid days, `get_monthly`
returns exactly the fold over the rows whose day's year and month equal
the query — sums for `bytes_sent`, `bytes_recv`, `active_seconds`,
maxima (from zero) for the peak speeds, and `days_tracked` equal to the
count of such rows, not the calendar length of the month. -/
theorem get_monthly_refines_fold (t : List DailyUsage) (y m : Nat)
    (hy : y < 10000) (hm : m < 100)
    (ht : ∀ r ∈ t, r.day.year < 10000 ∧ r.day.month < 100) :
    (get_monthly t y m).year = y ∧
    (get_monthly t y m).month = m ∧
    (get_monthly t y m).bytes_sent =
      ((monthRowsSpec t y m).map DailyUsage.bytes_sent).sum ∧
    (get_monthly t y m).bytes_recv =
      ((monthRowsSpec t y m).map DailyUsage.bytes_recv).sum ∧
    (get_monthly t y m).active_seconds =
      ((monthRowsSpec t y m).map DailyUsage.active_seconds).sum ∧
    (get_monthly t y m).max_up_speed =
      ((monthRowsSpec t y m).map DailyUsage.max_up_speed).foldl max 0 ∧
    (get_monthly t y m).max_down_speed =
      ((monthRowsSpec t y m).map DailyUsage.max_down_speed).foldl max 0 ∧
    (get_monthly t y m).days_tracked = (monthRowsSpec t y m).length := by
  have hfilter :
      (t.filter fun r => (monthKey y m).isPrefixOf (isoChars r.day)) =
        monthRowsSpec t y m := by
    unfold monthRowsSpec
    apply List.filter_congr
    intro r hr
    rw [Bool.eq_iff_iff, decide_eq_true_eq]
    exact monthKey_isPrefixOf_iff y m r.day hy hm (ht r hr).1 (ht r hr).2
  unfold get_monthly
  rw [hfilter]
  have h := monthly_fold_fields (monthRowsSpec t y m) (initMonthly y m)
  refine ⟨h.1, h.2.1, ?_, ?_, ?_, h.2.2.2.2.2.1, h.2.2.2.2.2.2.1, ?_⟩
  · rw [h.2.2.1]
    show (0 : Int) + _ = _
    rw [zero_add]
  · rw [h.2.2.2.1]
    show (0 : Int) + _ = _
    rw [zero_add]
  · rw [h.2.2.2.2.1]
    show (0 : Int) + _ = _
    rw [zero_add]
  · rw [h.2.2.2.2.2.2.2]
    show 0 + _ = _
    rw [Nat.zero_add]

/-- Witness for C6 on a concrete two-row table spanning two months. -/
theorem get_monthly_refines_fold_witness :
    (get_monthly [rowA, rowC] 2024 1).bytes_sent =
      ((monthRowsSpec [rowA, rowC] 2024 1).map DailyUsage.bytes_sent).sum ∧
    (get_monthly [rowA, rowC] 2024 1).days_tracked =
      (monthRowsSpec [rowA, rowC] 2024 1).length :=
  ⟨(get_monthly_refines_fold [rowA, rowC] 2024 1 (by decide) (by decide)
      (by decide)).2.2.1,
   (get_monthly_refines_fold [rowA, rowC] 2024 1 (by decide) (by decide)
      (by decide)).2.2.2.2.2.2.2⟩

/-! ## C7 -/

/-- C7: at construction, when the store holds a row for today the running
totals are seeded from that row and the flush counter starts at zero;
when it holds none, every field starts at zero. -/
theorem initAcc_resume (today : Day) (t : List DailyUsage) :
    (∀ r, get_daily t today = some r →
      (initAcc today t).today = today ∧
      (initAcc today t).bytes_sent = r.bytes_sent ∧
      (initAcc today t).bytes_recv = r.bytes_recv ∧
      (initAcc today t).max_up = r.max_up_speed ∧
      (initAcc today t).max_down = r.max_down_speed ∧
      (initAcc today t).active_secs = r.active_seconds ∧
      (initAcc today t).flush_counter = 0) ∧
    (get_daily t today = none →
      initAcc today t = ⟨today, 0, 0, 0, 0, 0, 0⟩) := by
  constructor
  · intro r h
    unfold initAcc
    rw [h]
    exact ⟨rfl, rfl, rfl, rfl, rfl, rfl, rfl⟩
  · intro h
    unfold initAcc
    rw [h]

/-- Witness for C7: resuming from a stored partial row. -/
theorem initAcc_resume_witness :
    (initAcc dayA [rowA]).bytes_sent = rowA.bytes_sent ∧
    (initAcc dayA [rowA]).active_secs = rowA.active_seconds :=
  ⟨((initAcc_resume dayA [rowA]).1 rowA (by decide)).2.1,
   ((initAcc_resume dayA [rowA]).1 rowA (by decide)).2.2.2.2.2.1⟩

/-! ## C8 -/

/-- The accumulator state, the repository-call arguments and the event
trace of a step do not depend on whether the repository writes succeed:
only the resulting store does. -/
theorem accumulate_ok_indep (okR okR2 okP okP2 : Bool) (now : Day)
    (snap : SpeedSnapshot) (t : List DailyUsage) (s : AccState) :
    (accumulate okR okP now snap t s).state =
      (accumulate okR2 okP2 now snap t s).state ∧
    (accumulate okR okP now snap t s).calls =
      (accumulate okR2 okP2 now snap t s).calls ∧
    (accumulate okR okP now snap t s).events =
      (accumulate okR2 okP2 now snap t s).events := by
  simp only [accumulate, foldSnap, rollReset]
  by_cases h : now = s.today <;>
    by_cases hc : s.flush_counter + 1 ≥ FLUSH_INTERVAL <;>
      simp [h, hc]

/-- C8: a failing repository write leaves the store unchanged and the
call returns normally; the in-memory state (and everything the step does
apart from the store) is the same as on success; and a later successful
flush writes the full accumulated running totals for the day — replacing
the byte and seconds fields, merging the peaks — so nothing is lost. -/
theorem flush_failure_safe (t : List DailyUsage) (s : AccState)
    (okR okR2 okP okP2 : Bool) (now : Day) (snap : SpeedSnapshot) :
    flushStore false t s = t ∧
    (accumulate okR okP now snap t s).state =
      (accumulate okR2 okP2 now snap t s).state ∧
    (accumulate okR okP now snap t s).calls =
      (accumulate okR2 okP2 now snap t s).calls ∧
    (∀ r0, get_daily t s.today = some r0 →
      ∃ r, get_daily (flushStore true t s) s.today = some r ∧
        r.bytes_sent = s.bytes_sent ∧
        r.bytes_recv = s.bytes_recv ∧
        r.active_seconds = s.active_secs ∧
        r.max_up_speed = max r0.max_up_speed s.max_up ∧
        r.max_down_speed = max r0.max_down_speed s.max_down) ∧
    (get_daily t s.today = none →
      get_daily (flushStore true t s) s.today = some (today_usage s)) := by
  refine ⟨rfl, (accumulate_ok_indep okR okR2 okP okP2 now snap t s).1,
    (accumulate_ok_indep okR okR2 okP okP2 now snap t s).2.1, ?_, ?_⟩
  · intro r0 h
    exact ⟨mergeRow r0 (today_usage s),
      get_daily_upsert_present t (today_usage s) r0 h, rfl, rfl, rfl, rfl, rfl⟩
  · intro h
    exact get_daily_upsert_absent t (today_usage s) h

/-- Witness for C8: a successful flush onto an existing row carries the
full running totals. -/
theorem flush_failure_safe_witness :
    ∃ r, get_daily (flushStore true [rowA] accA) accA.today = some r ∧
      r.bytes_sent = accA.bytes_sent ∧
      r.bytes_recv = accA.bytes_recv ∧
      r.active_seconds = accA.active_secs ∧
      r.max_up_speed = max rowA.max_up_speed accA.max_up ∧
      r.max_down_speed = max rowA.max_down_speed accA.max_down :=
  (flush_failure_safe [rowA] accA true true true true dayA snapA).2.2.2.1 rowA
    (by decide)

/-! ## C9 -/

/-- The event trace of one `_accumulate` call: an optional rollover
flush, then the fold, then the counter increment, then an optional
threshold flush. -/
theorem accumulate_events_shape (okR okP : Bool) (now : Day)
    (snap : SpeedSnapshot) (t : List DailyUsage) (s : AccState) :
    (accumulate okR okP now snap t s).events =
      (if now = s.today then ([] : List Ev) else [Ev.rollFlush]) ++
        [Ev.fold, Ev.incr] ++
        (if s.flush_counter + 1 ≥ FLUSH_INTERVAL then [Ev.perFlush] else []) := by
  simp only [accumulate, foldSnap, rollReset]
  by_cases h : now = s.today <;>
    by_cases hc : s.flush_counter + 1 ≥ FLUSH_INTERVAL <;>
      simp [h, hc]

/-- C9 is false on the code: in the loop body the broadcast runs after
`_accumulate`, so at this concrete iteration the broadcast's position in
the event trace is after the counter increment, not before. -/
theorem broadcast_before_incr_cex :
    ¬ broadcastBeforeIncr (loopIterEvents true true dayA snapA [] accA) := by
  unfold broadcastBeforeIncr
  decide

/-- C9 (amended): in each loop iteration the snapshot is broadcast after
`_accumulate` completes — after the flush counter is incremented and
after any threshold-triggered flush of that iteration. -/
theorem broadcast_after_accumulate (okR okP : Bool) (now : Day)
    (snap : SpeedSnapshot) (t : List DailyUsage) (s : AccState) :
    loopIterEvents okR okP now snap t s =
      (accumulate okR okP now snap t s).events ++ [Ev.broadcast] ∧
    (loopIterEvents okR okP now snap t s).indexOf Ev.incr <
      (loopIterEvents okR okP now snap t s).indexOf Ev.broadcast ∧
    (∀ k, k < (loopIterEvents okR okP now snap t s).length →
      (loopIterEvents okR okP now snap t s).getD k Ev.fold = Ev.perFlush →
      k < (loopIterEvents okR okP now snap t s).indexOf Ev.broadcast) := by
  refine ⟨rfl, ?_, ?_⟩ <;>
  · unfold loopIterEvents
    rw [accumulate_events_shape]
    by_cases h : now = s.today <;>
      by_cases hc : s.flush_counter + 1 ≥ FLUSH_INTERVAL <;>
        simp only [h, hc, if_true, if_false, if_pos, if_neg, not_false_iff] <;>
          decide

set_option maxRecDepth 4000 in
/-- Witness for the amended C9 at an iteration whose threshold flush
fires: the flush event at position 2 still precedes the broadcast. -/
theorem broadcast_after_accumulate_witness :
    2 < (loopIterEvents true true dayA snapA [] accNine).indexOf Ev.broadcast :=
  (broadcast_after_accumulate true true dayA snapA [] accNine).2.2 2
    (by decide) (by decide)

/-! ## C10 -/

/-- C10: `_flush` by itself never modifies the accumulator — `stop`
returns the state untouched — and the flush counter is reset only by the
threshold branch of `_accumulate`: on a rollover step the counter still
ticks from its old value (reset to zero only if it reaches the
threshold), and a rollover step at counter 9 performs two repository
calls in the same interval — the periodic flush comes fewer than ten
intervals after the rollover flush. -/
theorem flush_frame_and_counter (ok : Bool) (t : List DailyUsage)
    (s : AccState) (now : Day) (snap : SpeedSnapshot) (h : now ≠ s.today) :
    (stopFlush ok t s).2 = s ∧
    (accumulate ok ok now snap t s).state.flush_counter =
      (if s.flush_counter + 1 ≥ FLUSH_INTERVAL then 0 else s.flush_counter + 1) ∧
    (s.flush_counter = 9 →
      (accumulate true true now snap t s).calls.length = 2) := by
  refine ⟨rfl, ?_, ?_⟩
  · simp only [accumulate, foldSnap, rollReset]
    by_cases hc : s.flush_counter + 1 ≥ FLUSH_INTERVAL <;>
      simp [h, hc]
  · intro h9
    simp only [accumulate, foldSnap, rollReset, if_neg h]
    rw [if_pos (by rw [h9]; decide)]
    rfl

/-- Witness for C10: the final flush of `stop` leaves the state alone,
and a rollover step at counter 9 makes two repository calls. -/
theorem flush_frame_and_counter_witness :
    (stopFlush true [] accA).2 = accA ∧
    (accumulate true true dayB snapA [] accNine).calls.length = 2 :=
  ⟨(flush_frame_and_counter true [] accA dayB snapA (by decide)).1,
   (flush_frame_and_counter true [] accNine dayB snapA (by decide)).2.2
     (by decide)⟩

end SpeedMonitor
